import Mathlib

/-!
Verification of the ukoly-monorepo code-execution service.

Shallow embedding of the execution supervisor: the per-language
configuration tables, the monitor shell scripts (timeout variant and
polling variant), the per-test result construction of the sequential and
streaming executors, the `SandboxRuntime` class, and the trace-level model
of `executeCodeSequential` / `executeCodeStreaming` (sandbox exec /
writeFile / destroy invocations and thrown errors are driven by an
explicit response script so every control path of the try/catch/finally
structure is covered).
-/

namespace Ukoly


/-- Whitespace characters as trimmed by JavaScript `String.prototype.trim`
and Python `str.strip` (the subset that can occur in this system's data). -/
def isWsChar (c : Char) : Bool := c = ' ' || c = '\n' || c = '\t' || c = '\r'

/-- Trim leading and trailing whitespace from a character list. -/
def trimChars (l : List Char) : List Char :=
  ((l.dropWhile isWsChar).reverse.dropWhile isWsChar).reverse

/-- JavaScript `s.trim()`. -/
def jsTrim (s : String) : String := String.mk (trimChars s.data)

/-- JavaScript `s.split("\n")` on character lists: split at every newline,
keeping empty segments; the empty input yields one empty segment. -/
def splitNl : List Char → List (List Char)
  | [] => [[]]
  | c :: rest =>
    if c = '\n' then [] :: splitNl rest
    else
      match splitNl rest with
      | [] => [[c]]
      | l :: ls => (c :: l) :: ls

/-- JavaScript `arr.join("\n")` on character lists. -/
def joinNl : List (List Char) → List Char
  | [] => []
  | [l] => l
  | l :: ls => l ++ '\n' :: joinNl ls

/-- JavaScript `s.split("\n")`. -/
def jsSplitNl (s : String) : List String := (splitNl s.data).map String.mk

/-- JavaScript `arr.join("\n")` for string lists. -/
def jsJoinNl (ls : List String) : String := String.mk (joinNl (ls.map String.data))

/-- Numeric value of a decimal digit character. -/
def digitVal (c : Char) : Nat := c.toNat - 48

/-- Value of a big-endian decimal digit string. -/
def decimalValue (l : List Char) : Nat := l.foldl (fun a c => a * 10 + digitVal c) 0

/-- JavaScript `parseInt(s)` (radix 10): skip leading whitespace, optional
sign, longest digit prefix; `none` models `NaN`. -/
def jsParseInt (s : String) : Option Int :=
  let l := s.data.dropWhile isWsChar
  if l.head? = some '-' then
    let d := l.tail.takeWhile Char.isDigit
    if d.isEmpty then none else some (-(decimalValue d : Int))
  else if l.head? = some '+' then
    let d := l.tail.takeWhile Char.isDigit
    if d.isEmpty then none else some ((decimalValue d : Nat) : Int)
  else
    let d := l.takeWhile Char.isDigit
    if d.isEmpty then none else some ((decimalValue d : Nat) : Int)

/-- JavaScript `s || d` for strings: the empty string is falsy. -/
def jsOrS (s d : String) : String := if s = "" then d else s

/-- JavaScript `x || d` where `x` is a possibly-undefined string. -/
def jsOrOpt (o : Option String) (d : String) : String :=
  match o with
  | none => d
  | some s => jsOrS s d

/-- Result of one `sandbox.exec` call (stdout, stderr, exit code). -/
structure ExecResult where
  stdout : String
  stderr : String
  exitCode : Int
deriving DecidableEq

/-- The three values the callers recover from the monitor's stdout. -/
structure ParsedOutput where
  programOutput : String
  timeMS : Option Int
  memoryKB : Option Int
deriving DecidableEq

/-- The callers' parse of the monitor script's stdout
(`executeCodeSequential`, `executeCodeStreaming`, `SandboxRuntime.executeTimed`
all share this shape): trim, split on newlines, pop the last line as memory
KB, pop the next as elapsed ms, rejoin the remainder as program output. -/
def parseMonitorOutput (stdout : String) : ParsedOutput :=
  let outputLines := jsSplitNl (jsTrim stdout)
  let memoryKB := outputLines.getLast?
  let lines1 := outputLines.dropLast
  let timeMS := lines1.getLast?
  let lines2 := lines1.dropLast
  { programOutput := jsJoinNl lines2
    timeMS := jsParseInt (jsOrOpt timeMS "0")
    memoryKB := jsParseInt (jsOrOpt memoryKB "0") }

/-- Per-test result record of the sequential / streaming executors. -/
structure ExecutionResult where
  testCaseIndex : Nat
  stdout : String
  stderr : String
  exitCode : Int
  memoryKB : Option Int
  timeMS : Option Int
  timedOut : Bool
  memoryExceeded : Bool
  error : Option String
deriving DecidableEq

/-- Result construction of the sequential batch executor
(`executeCodeSequential` success path): limit-breach flags are decided by
comparing the monitor's exit code against 124 (time) and 137 (memory).
`result.exitCode || 0` is the identity on integer exit codes since the only
falsy integer is 0 itself. -/
def mkSeqTestResult (i : Nat) (r : ExecResult) : ExecutionResult :=
  let p := parseMonitorOutput r.stdout
  { testCaseIndex := i
    stdout := p.programOutput
    stderr := r.stderr
    exitCode := r.exitCode
    memoryKB := p.memoryKB
    timeMS := p.timeMS
    timedOut := r.exitCode == 124
    memoryExceeded := r.exitCode == 137
    error := none }

/-- Result construction of the streaming executor
(`executeCodeStreaming` success path): flags compare against 143 (time)
and 134 (memory). -/
def mkStreamTestResult (i : Nat) (r : ExecResult) : ExecutionResult :=
  let p := parseMonitorOutput r.stdout
  { testCaseIndex := i
    stdout := p.programOutput
    stderr := r.stderr
    exitCode := r.exitCode
    memoryKB := p.memoryKB
    timeMS := p.timeMS
    timedOut := r.exitCode == 143
    memoryExceeded := r.exitCode == 134
    error := none }

/-- Per-run result record of `SandboxRuntime.executeTimed`
(workers/api-worker/src/execution-sandbox.ts). -/
structure SRExecutionResult where
  stdout : String
  stderr : String
  exitCode : Int
  memoryKB : Option Int
  timeMS : Option Int
  timedOut : Bool
  memoryExceeded : Bool
deriving DecidableEq

/-- Result construction of `SandboxRuntime.executeTimed`: flags compare the
monitor's exit code against 143 (time) and 134 (memory). -/
def srExecuteTimedResult (r : ExecResult) : SRExecutionResult :=
  let p := parseMonitorOutput r.stdout
  { stdout := p.programOutput
    stderr := r.stderr
    exitCode := r.exitCode
    memoryKB := p.memoryKB
    timeMS := p.timeMS
    timedOut := r.exitCode == 143
    memoryExceeded := r.exitCode == 134 }

/-! ## Decimal rendering (the monitor's `echo "$TIME_MS"` / `echo "$MEM_KB"`) -/

/-- The character for one decimal digit. -/
def digitChar10 (d : Nat) : Char :=
  if d = 0 then '0' else if d = 1 then '1' else if d = 2 then '2' else if d = 3 then '3'
  else if d = 4 then '4' else if d = 5 then '5' else if d = 6 then '6' else if d = 7 then '7'
  else if d = 8 then '8' else '9'

/-- Decimal rendering of a natural number, as printed by the shell. -/
def natToChars (n : Nat) : List Char :=
  if n < 10 then [digitChar10 n]
  else natToChars (n / 10) ++ [digitChar10 (n % 10)]
decreasing_by exact Nat.div_lt_self (by omega) (by omega)

/-- The timeout-variant monitor script: after the inner command finishes
(or `timeout` kills it), print the captured stdout of the inner command,
then the elapsed milliseconds on one line, then the peak memory KB on one
line; the inner exit status is passed through separately. -/
def timeoutMonitorOutput (innerStdout : String) (timeMs memKb : Nat) : String :=
  innerStdout ++ String.mk (natToChars timeMs) ++ "\n" ++ String.mk (natToChars memKb) ++ "\n"

/-- The final clamp of the polling-variant monitor: if the measured
execution time exceeds the configured limit, report exactly the limit and
force the time-exceeded flag; otherwise report the measurement and keep
the flag. -/
def pollingClampTime (executionTime timeLimitMs : Nat) (timeExceeded : Bool) : Nat × Bool :=
  if executionTime > timeLimitMs then (timeLimitMs, true) else (executionTime, timeExceeded)

/-! ## The polling-variant monitor loop -/

/-- One sample taken by the polling-variant monitor while the child is
alive: elapsed wall-clock ms, the child's own VmRSS reading in KB (`none`
when /proc/PID/status is absent), and the VmRSS readings of the live
children found by pgrep. -/
structure Sample where
  elapsedMs : Nat
  memKb : Option Nat
  childMemKb : List Nat
deriving DecidableEq

/-- How the polling-variant monitor's loop ends. -/
inductive MonExit where
  | timeKill
  | memKill
  | finished
deriving DecidableEq

/-- The child sweep of the polling loop: raise the running maximum with
each child's reading; breach as soon as one reading strictly exceeds the
limit. -/
def checkChildren (memoryLimitKb : Nat) : Nat → List Nat → Nat × Bool
  | maxMem, [] => (maxMem, false)
  | maxMem, c :: cs =>
    let mx := if maxMem < c then c else maxMem
    if memoryLimitKb < c then (mx, true)
    else checkChildren memoryLimitKb mx cs

/-- Running maximum update from the child's own VmRSS reading. -/
def ownMax (maxMem : Nat) : Option Nat → Nat
  | none => maxMem
  | some v => if maxMem < v then v else maxMem

/-- The child's own memory check: `CURRENT_MEMORY -gt MEMORY_LIMIT_KB`. -/
def ownExceeded (memoryLimitKb : Nat) : Option Nat → Bool
  | none => false
  | some v => memoryLimitKb < v

/-- The monitoring loop of the polling-variant monitor, one iteration per
element of `samples` (the loop ends naturally when the process exits):
time is checked first and kills when elapsed ms is >= the limit; then the
own memory reading kills when strictly greater than the limit; then each
child reading likewise. -/
def pollLoop (timeLimitMs memoryLimitKb : Nat) : Nat → List Sample → MonExit × Nat
  | maxMem, [] => (MonExit.finished, maxMem)
  | maxMem, s :: rest =>
    if timeLimitMs ≤ s.elapsedMs then (MonExit.timeKill, maxMem)
    else if ownExceeded memoryLimitKb s.memKb then
      (MonExit.memKill, ownMax maxMem s.memKb)
    else if (checkChildren memoryLimitKb (ownMax maxMem s.memKb) s.childMemKb).2 then
      (MonExit.memKill, (checkChildren memoryLimitKb (ownMax maxMem s.memKb) s.childMemKb).1)
    else pollLoop timeLimitMs memoryLimitKb
      (checkChildren memoryLimitKb (ownMax maxMem s.memKb) s.childMemKb).1 rest

/-! ## btoa and the stdin-injection templates -/

/-- The base64 alphabet in index order. -/
def base64Chars : List Char :=
  ("ABCDEFGHIJKLMNOPQRSTUVWXYZabcdefghijklmnopqrstuvwxyz0123456789+/").data

/-- The base64 digit for a 6-bit value. -/
def b64Char (n : Nat) : Char := base64Chars.getD n 'A'

/-- JavaScript `btoa` on a byte list: 3 input bytes become 4 alphabet
characters; a 1- or 2-byte tail is padded with `=`. -/
def btoaBytes : List Nat → List Char
  | [] => []
  | [a] => [b64Char (a / 4), b64Char (a % 4 * 16), '=', '=']
  | [a, b] => [b64Char (a / 4), b64Char (a % 4 * 16 + b / 16), b64Char (b % 16 * 4), '=']
  | a :: b :: c :: rest =>
    b64Char (a / 4) :: b64Char (a % 4 * 16 + b / 16) :: b64Char (b % 16 * 4 + c / 64) ::
      b64Char (c % 64) :: btoaBytes rest

/-- `btoa` producing a string. -/
def btoaStr (bytes : List Nat) : String := String.mk (btoaBytes bytes)

/-- Characters `btoa` can emit: the 64 alphabet characters and `=`. -/
def isBase64OutChar (c : Char) : Bool := base64Chars.contains c || c = '='

/-- Fixed template text before the encoded stdin blob in the JavaScript
rewrite of `execution-sandbox.ts`. -/
def jsTplA : String :=
  "\n// Setup input handling\nconst input = (lines => () => lines.pop() || \"\")(atob(\""

/-- Fixed template text between the blob and the user code. -/
def jsTplB : String :=
  "\").split(\"\\n\").map(line => line.trim()).reverse());\n\n// Execute user code in an IIFE to avoid global variable pollution\n(() => \x7b\n"

/-- Fixed template text after the user code. -/
def jsTplC : String := "\n\x7d)();\n"

/-- `LANGUAGE_CONFIG.javascript.setupStdin` of `execution-sandbox.ts`:
the stdin enters the produced source only as `btoa(stdin)` spliced between
the fixed template pieces; the user code is re-injected inside an IIFE. -/
def jsSetupStdinSR (code : String) (stdin : List Nat) : String :=
  jsTplA ++ btoaStr stdin ++ jsTplB ++ code ++ jsTplC

/-- Fixed template text before the encoded stdin blob in the Python
rewrite of `execution-sandbox.ts`. -/
def pyTplA : String :=
  "\nimport base64\nimport sys\n\n# Setup input handling\n_input_lines = base64.b64decode(\""

/-- Fixed template text between the blob and the user code. -/
def pyTplB : String :=
  "\").decode().strip().split(\"\\n\")\n_input_index = 0\n\ndef input():\n    global _input_index\n    if _input_index < len(_input_lines):\n        line = _input_lines[_input_index]\n        _input_index += 1\n        return line\n    return \"\"\n\n# Execute user code\n"

/-- Fixed template text after the user code. -/
def pyTplC : String := "\n"

/-- `LANGUAGE_CONFIG.python.setupStdin` of `execution-sandbox.ts`. -/
def pySetupStdinSR (code : String) (stdin : List Nat) : String :=
  pyTplA ++ btoaStr stdin ++ pyTplB ++ code ++ pyTplC

/-! ## The injected replacement input() functions -/

/-- The line list built by the injected JavaScript preamble before
reversal: the decoded stdin split on newlines, each line trimmed. -/
def jsInputLines (decoded : String) : List String := (jsSplitNl decoded).map jsTrim

/-- The reversed array the `input` closure captures. -/
def jsInputInit (decoded : String) : List String := (jsInputLines decoded).reverse

/-- One call of the injected JS `input()`: `lines.pop() || ""` — pop the
last element (undefined at exhaustion becomes the empty string). -/
def jsInputCall (st : List String) : String × List String :=
  match st.getLast? with
  | none => ("", st.dropLast)
  | some l => (jsOrS l "", st.dropLast)

/-- Result of the k-th (0-based) call of a stateful zero-argument
function. -/
def callN {σ : Type} (step : σ → String × σ) (st : σ) : Nat → String
  | 0 => (step st).1
  | k+1 => callN step (step st).2 k

/-- Python `str.strip()` (same whitespace set as modelled for trim). -/
def pyStrip (s : String) : String := String.mk (trimChars s.data)

/-- The line list built by the injected Python preamble:
`b64decode(blob).decode().strip().split("\n")`. -/
def pyInputLines (decoded : String) : List String := jsSplitNl (pyStrip decoded)

/-- One call of the injected Python `input()`: return the line at
`_input_index` and advance, or the empty string once exhausted. -/
def pyInputCall (lines : List String) (idx : Nat) : String × Nat :=
  if idx < lines.length then (lines.getD idx "", idx + 1) else ("", idx)

/-- Result of the k-th (0-based) call of the Python input machine. -/
def pyCallN (lines : List String) (idx : Nat) : Nat → String
  | 0 => (pyInputCall lines idx).1
  | k+1 => pyCallN lines (pyInputCall lines idx).2 k

/-! ## Trace model of the executors

Sandbox interactions (`sandbox.exec`, `sandbox.writeFile`,
`webSocket.send`, `sandbox.destroy`) are driven by an explicit response
script: each interaction consumes the next `Resp`, which either supplies
the call's result or makes the call throw with a message.  Every
interaction appends one `Event` to the trace, whether or not it throws
(the invocation happened).  This covers every control path of the
executors' try/catch/finally structure. -/

/-- A test case of the sequential executor request. -/
structure TestCase where
  stdin : String
  timeLimit : Nat
  memoryLimit : Nat
deriving DecidableEq

/-- A per-language row of the executors' LANGUAGE_CONFIG table. -/
structure LanguageConfig where
  extension : String
  isCompiled : Bool
  compileCommand : Option String
  executeCommand : String
  setupStdin : Option (String → String)

/-- One observable sandbox/WebSocket interaction. -/
inductive Event where
  | execCmd (cmd : String)
  | fileWrite (path content : String)
  | wsSend (tag : String)
  | destroyCall
deriving DecidableEq, BEq

/-- Scripted behaviour of one sandbox interaction. -/
inductive Resp where
  | ok (r : ExecResult)
  | thrown (msg : String)
deriving DecidableEq

/-- `sandbox.exec`: consume the next scripted response. -/
def doExec (cmd : String) (env : List Resp) :
    Except String ExecResult × List Resp × List Event :=
  (match env with
   | [] => Except.error "no response scripted"
   | Resp.ok r :: _ => Except.ok r
   | Resp.thrown msg :: _ => Except.error msg,
   env.tail, [Event.execCmd cmd])

/-- `sandbox.writeFile`. -/
def doWrite (path content : String) (env : List Resp) :
    Except String Unit × List Resp × List Event :=
  (match env with
   | [] => Except.error "no response scripted"
   | Resp.ok _ :: _ => Except.ok ()
   | Resp.thrown msg :: _ => Except.error msg,
   env.tail, [Event.fileWrite path content])

/-- `webSocket.send` (streaming executor); the payload is abstracted to
its message tag. -/
def doSend (tag : String) (env : List Resp) :
    Except String Unit × List Resp × List Event :=
  (match env with
   | [] => Except.error "no response scripted"
   | Resp.ok _ :: _ => Except.ok ()
   | Resp.thrown msg :: _ => Except.error msg,
   env.tail, [Event.wsSend tag])

/-- Sequencing: on success continue with `f`, on a thrown error skip `f`;
the traces concatenate. -/
def andThenE {α β : Type} (s : Except String α × List Resp × List Event)
    (f : α → List Resp → Except String β × List Resp × List Event) :
    Except String β × List Resp × List Event :=
  match s.1 with
  | Except.error m => (Except.error m, s.2.1, s.2.2)
  | Except.ok a =>
    let t := f a s.2.1
    (t.1, t.2.1, s.2.2 ++ t.2.2)

/-- try/catch: on a thrown error run the handler. -/
def catchE {α : Type} (s : Except String α × List Resp × List Event)
    (h : String → List Resp → Except String α × List Resp × List Event) :
    Except String α × List Resp × List Event :=
  match s.1 with
  | Except.ok a => (Except.ok a, s.2.1, s.2.2)
  | Except.error m =>
    let t := h m s.2.1
    (t.1, t.2.1, s.2.2 ++ t.2.2)

/-- The warm-up command `echo 'Hello, world!'` (single quotes built
explicitly). -/
def warmupCmd : String :=
  "echo " ++ String.mk [Char.ofNat 39] ++ "Hello, world!" ++ String.mk [Char.ofNat 39]

/-- JavaScript `s.includes(sub)`. -/
def jsIncludes (s sub : String) : Bool :=
  s.data.tails.any (fun t => sub.data.isPrefixOf t)

/-- The source file name: Java gets /app/Main.java, everything else
/app/code plus the language extension. -/
def fileNameFor (cfg : LanguageConfig) : String :=
  if cfg.extension = ".java" then "/app/Main.java" else "/app/code" ++ cfg.extension

/-- Opening of the synthesized Java Main wrapper. -/
def javaWrapA : String :=
  "public class Main \x7b\n    public static void main(String[] args) \x7b\n"

/-- Closing of the synthesized Java Main wrapper. -/
def javaWrapB : String := "\n    \x7d\n\x7d"

/-- The content written before compilation: Java code lacking a Main class
is wrapped; every other language is written unmodified. -/
def codeForCompilation (cfg : LanguageConfig) (code : String) : String :=
  if cfg.extension == ".java" && !(jsIncludes code "class Main") then
    javaWrapA ++ code ++ javaWrapB
  else code

/-- The monitor invocation of the sequential executor:
`/usr/local/bin/monitor.sh <timeLimit> <memoryLimit> "<executeCommand><stdinFile>"`. -/
def monitorCmd (cfg : LanguageConfig) (tc : TestCase) (stdinFile : String) : String :=
  "/usr/local/bin/monitor.sh " ++ String.mk (natToChars tc.timeLimit) ++ " " ++
    String.mk (natToChars tc.memoryLimit) ++ " \"" ++ cfg.executeCommand ++ stdinFile ++ "\""

/-- The outcome pushed by the sequential executor's per-test catch block:
exit code 1, flags from the message text, the message as stderr and as the
error field. -/
def seqCatchResult (i : Nat) (msg : String) : ExecutionResult :=
  { testCaseIndex := i
    stdout := ""
    stderr := msg
    exitCode := 1
    memoryKB := some 0
    timeMS := some 0
    timedOut := jsIncludes msg "timeout"
    memoryExceeded := false
    error := some msg }

/-- The synthetic outcome produced for every requested test case when the
compile step exits non-zero. -/
def compileFailResult (stderrText : String) (exitCode : Int) (i : Nat) : ExecutionResult :=
  { testCaseIndex := i
    stdout := ""
    stderr := stderrText
    exitCode := exitCode
    memoryKB := some 0
    timeMS := some 0
    timedOut := false
    memoryExceeded := false
    error := some "Compilation failed" }

/-- The outcome produced for every requested test case by the session-wide
catch block. -/
def sessionErrorResult (msg : String) (i : Nat) : ExecutionResult :=
  { testCaseIndex := i
    stdout := ""
    stderr := msg
    exitCode := 1
    memoryKB := some 0
    timeMS := some 0
    timedOut := false
    memoryExceeded := false
    error := some msg }

/-- The sandbox interactions of one test case (inside the per-test try):
interpreted languages rewrite the source with the stdin preamble, compiled
languages write the stdin file, then the monitor command runs. -/
def runTestOps (cfg : LanguageConfig) (code : String) (tc : TestCase) (env : List Resp) :
    Except String ExecResult × List Resp × List Event :=
  andThenE
    (if cfg.isCompiled then (Except.ok (), env, [])
     else
       doWrite (fileNameFor cfg)
         ((match cfg.setupStdin with
           | some f => f tc.stdin
           | none => "") ++ code) env)
    (fun _ env1 =>
      andThenE
        (if cfg.isCompiled then doWrite "/app/stdin.txt" tc.stdin env1
         else (Except.ok (), env1, []))
        (fun _ env2 =>
          doExec (monitorCmd cfg tc (if cfg.isCompiled then " < /app/stdin.txt" else ""))
            env2))

/-- One test case of the sequential executor, its catch block included. -/
def runTestCase (cfg : LanguageConfig) (code : String) (i : Nat) (tc : TestCase)
    (env : List Resp) : ExecutionResult × List Resp × List Event :=
  match runTestOps cfg code tc env with
  | (Except.error msg, env1, ev1) => (seqCatchResult i msg, env1, ev1)
  | (Except.ok r, env1, ev1) => (mkSeqTestResult i r, env1, ev1)

/-- The sequential executor's test loop, recording one outcome per index. -/
def runTests (cfg : LanguageConfig) (code : String) :
    Nat → List TestCase → List Resp → List ExecutionResult × List Resp × List Event
  | _, [], env => ([], env, [])
  | i, tc :: rest, env =>
    let h := runTestCase cfg code i tc env
    let t := runTests cfg code (i+1) rest h.2.1
    (h.1 :: t.1, t.2.1, h.2.2 ++ t.2.2)

/-- Body of `executeCodeSequential`'s try block: warm-up exec, write the
source once, compile once when the language is compiled (returning N
synthetic outcomes and skipping the loop when the compile exits non-zero),
then the per-test loop. -/
def execBody (cfg : LanguageConfig) (code : String) (tcs : List TestCase)
    (env : List Resp) :
    Except String (List ExecutionResult) × List Resp × List Event :=
  andThenE (doExec warmupCmd env) (fun _ env1 =>
    andThenE (doWrite (fileNameFor cfg) (codeForCompilation cfg code) env1) (fun _ env2 =>
      match cfg.isCompiled, cfg.compileCommand with
      | true, some cc =>
        andThenE (doExec cc env2) (fun cr env3 =>
          if cr.exitCode ≠ 0 then
            (Except.ok ((List.range tcs.length).map
              (compileFailResult (jsOrS cr.stderr "Compilation failed") cr.exitCode)),
             env3, [])
          else
            let t := runTests cfg code 0 tcs env3
            (Except.ok t.1, t.2.1, t.2.2))
      | _, _ =>
        let t := runTests cfg code 0 tcs env2
        (Except.ok t.1, t.2.1, t.2.2)))

/-- `executeCodeSequential`: the try body, the session-wide catch mapping
the error over all requested indices, and the finally block that always
invokes `sandbox.destroy()` exactly once (its own errors are swallowed by
the nested catch, and the invocation itself is the recorded event). -/
def executeCodeSequential (cfg : LanguageConfig) (code : String) (tcs : List TestCase)
    (env : List Resp) : List ExecutionResult × List Event :=
  let b := execBody cfg code tcs env
  let results := match b.1 with
    | Except.ok rs => rs
    | Except.error m => (List.range tcs.length).map (sessionErrorResult m)
  (results, b.2.2 ++ [Event.destroyCall])

/-- One test case of the streaming executor: the try block runs the same
sandbox interactions and then sends the result frame; the catch block
sends an error-result frame (whose own failure propagates). -/
def runStreamTest (cfg : LanguageConfig) (code : String) (i : Nat) (tc : TestCase)
    (env : List Resp) : Except String Unit × List Resp × List Event :=
  catchE
    (andThenE (runTestOps cfg code tc env) (fun _ env1 => doSend "result" env1))
    (fun _ env1 => doSend "result" env1)

/-- The streaming executor's test loop; a propagating error aborts it. -/
def runStreamTests (cfg : LanguageConfig) (code : String) :
    Nat → List TestCase → List Resp → Except String Unit × List Resp × List Event
  | _, [], env => (Except.ok (), env, [])
  | i, tc :: rest, env =>
    andThenE (runStreamTest cfg code i tc env)
      (fun _ env1 => runStreamTests cfg code (i+1) rest env1)

/-- Body of `executeCodeStreaming`'s try block: warm-up, write, compile
once (sending a compilation_error frame and returning on failure), the
streaming loop, then the complete frame. -/
def streamBody (cfg : LanguageConfig) (code : String) (tcs : List TestCase)
    (env : List Resp) : Except String Unit × List Resp × List Event :=
  andThenE (doExec warmupCmd env) (fun _ env1 =>
    andThenE (doWrite (fileNameFor cfg) (codeForCompilation cfg code) env1) (fun _ env2 =>
      match cfg.isCompiled, cfg.compileCommand with
      | true, some cc =>
        andThenE (doExec cc env2) (fun cr env3 =>
          if cr.exitCode ≠ 0 then doSend "compilation_error" env3
          else
            andThenE (runStreamTests cfg code 0 tcs env3)
              (fun _ env4 => doSend "complete" env4))
      | _, _ =>
        andThenE (runStreamTests cfg code 0 tcs env2)
          (fun _ env3 => doSend "complete" env3)))

/-- `executeCodeStreaming`: try body, catch sending an error frame (whose
own failure escapes the function), and the finally block always invoking
`sandbox.destroy()` exactly once. -/
def executeCodeStreaming (cfg : LanguageConfig) (code : String) (tcs : List TestCase)
    (env : List Resp) : Except String Unit × List Event :=
  let b := catchE (streamBody cfg code tcs env) (fun _ env1 => doSend "error" env1)
  (b.1, b.2.2 ++ [Event.destroyCall])

/-! ## SandboxRuntime (workers/api-worker/src/execution-sandbox.ts) -/

/-- A per-language configuration row of `execution-sandbox.ts`; for
interpreted languages `compileCommand` is unused. -/
structure SRConfig where
  isCompiled : Bool
  compileCommand : String
  executeCommand : String
  sourceFile : String
  setupStdin : Option (String → String → String)

/-- One `SandboxRuntime.run` input. -/
structure ExecutionInput where
  stdin : String
  timeLimitMs : Nat
  memoryLimit : Nat
deriving DecidableEq

/-- Fractional digits of `ms % 1000` as JavaScript prints them (trailing
zeros stripped). -/
def fracChars (f : Nat) : List Char :=
  (([digitChar10 (f / 100), digitChar10 (f / 10 % 10), digitChar10 (f % 10)]).reverse.dropWhile
    (fun c => c = '0')).reverse

/-- JavaScript rendering of `timeLimitMs / 1000` (a float division) as it
is interpolated into the monitor command line. -/
def srMsString (ms : Nat) : String :=
  if ms % 1000 = 0 then String.mk (natToChars (ms / 1000))
  else String.mk (natToChars (ms / 1000)) ++ "." ++ String.mk (fracChars (ms % 1000))

/-- The monitor invocation of `SandboxRuntime.executeTimed`: stdin is
always redirected from /app/stdin.txt. -/
def srMonitorCmd (cfg : SRConfig) (timeLimitMs memoryLimitKb : Nat) : String :=
  "/usr/local/bin/monitor.sh " ++ srMsString timeLimitMs ++ " " ++
    String.mk (natToChars memoryLimitKb) ++ " \"" ++ cfg.executeCommand ++
    " < /app/stdin.txt\""

/-- `SandboxRuntime.injectStdin`: compiled languages keep the code as is;
interpreted languages rewrite it through `setupStdin` (a falsy — empty —
rewrite falls back to the original code). -/
def srInjectStdin (cfg : SRConfig) (code stdin : String) : String :=
  if cfg.isCompiled then code
  else
    match cfg.setupStdin with
    | some f => jsOrS (f code stdin) code
    | none => code

/-- `SandboxRuntime.compileIfNeeded`: interpreted languages return true
immediately; compiled languages write the source and run the compile
command, storing — but never consulting — the `compiled` flag. -/
def srCompileIfNeeded (cfg : SRConfig) (code : String) (compiled : Bool)
    (env : List Resp) : Except String Bool × Bool × List Resp × List Event :=
  if cfg.isCompiled = false then (Except.ok true, compiled, env, [])
  else
    match doWrite cfg.sourceFile code env with
    | (Except.error m, env1, ev1) => (Except.error m, compiled, env1, ev1)
    | (Except.ok _, env1, ev1) =>
      match doExec cfg.compileCommand env1 with
      | (Except.error m, env2, ev2) => (Except.error m, compiled, env2, ev1 ++ ev2)
      | (Except.ok r, env2, ev2) =>
        (Except.ok (r.exitCode == 0), r.exitCode == 0, env2, ev1 ++ ev2)

/-- `SandboxRuntime.executeTimed`. -/
def srExecuteTimed (cfg : SRConfig) (timeLimitMs memoryLimit : Nat) (env : List Resp) :
    Except String SRExecutionResult × List Resp × List Event :=
  match doExec (srMonitorCmd cfg timeLimitMs memoryLimit) env with
  | (Except.error m, env1, ev1) => (Except.error m, env1, ev1)
  | (Except.ok r, env1, ev1) => (Except.ok (srExecuteTimedResult r), env1, ev1)

/-- `SandboxRuntime.run`: write stdin, write the (possibly rewritten)
source, call `compileIfNeeded`, then `executeTimed`. -/
def srRun (cfg : SRConfig) (code : String) (compiled : Bool) (input : ExecutionInput)
    (env : List Resp) : Except String SRExecutionResult × Bool × List Resp × List Event :=
  match doWrite "/app/stdin.txt" input.stdin env with
  | (Except.error m, env1, ev1) => (Except.error m, compiled, env1, ev1)
  | (Except.ok _, env1, ev1) =>
    match doWrite cfg.sourceFile (srInjectStdin cfg code input.stdin) env1 with
    | (Except.error m, env2, ev2) => (Except.error m, compiled, env2, ev1 ++ ev2)
    | (Except.ok _, env2, ev2) =>
      match srCompileIfNeeded cfg code compiled env2 with
      | (Except.error m, cmp, env3, ev3) => (Except.error m, cmp, env3, ev1 ++ ev2 ++ ev3)
      | (Except.ok _, cmp, env3, ev3) =>
        match srExecuteTimed cfg input.timeLimitMs input.memoryLimit env3 with
        | (Except.error m, env4, ev4) => (Except.error m, cmp, env4, ev1 ++ ev2 ++ ev3 ++ ev4)
        | (Except.ok res, env4, ev4) => (Except.ok res, cmp, env4, ev1 ++ ev2 ++ ev3 ++ ev4)

/-- A session over one `SandboxRuntime` instance: one `run` call per test
case against the same instance (the `compiled` field threads through). -/
def srSession (cfg : SRConfig) (code : String) :
    Bool → List ExecutionInput → List Resp → Bool × List Resp × List Event
  | compiled, [], env => (compiled, env, [])
  | compiled, input :: rest, env =>
    match srRun cfg code compiled input env with
    | (_, cmp, env1, ev1) =>
      let t := srSession cfg code cmp rest env1
      (t.1, t.2.1, ev1 ++ t.2.2)

/-- The cpp row of `LANGUAGE_CONFIG` in `execution-sandbox.ts`. -/
def srCppConfig : SRConfig :=
  { isCompiled := true
    compileCommand := "g++ -std=c++17 -O2 -o /app/executable /app/code.cpp"
    executeCommand := "/app/executable"
    sourceFile := "/app/code.cpp"
    setupStdin := none }

/-- The cpp row of the sequential executor's `LANGUAGE_CONFIG`. -/
def seqCppConfig : LanguageConfig :=
  { extension := ".cpp"
    isCompiled := true
    compileCommand := some "g++ -std=c++17 -O2 -o /app/executable /app/code.cpp"
    executeCommand := "/app/executable"
    setupStdin := none }

/-- No event in the list is the destroy invocation. -/
def NoDestroy (evs : List Event) : Prop := ∀ e ∈ evs, e ≠ Event.destroyCall

/-! ## Theorems -/

theorem digitChar10_isDigit (d : Nat) : (digitChar10 d).isDigit = true := by
  unfold digitChar10; split_ifs <;> decide

theorem digitChar10_not_ws (d : Nat) : isWsChar (digitChar10 d) = false := by
  unfold digitChar10; split_ifs <;> decide

theorem digitChar10_ne_nl (d : Nat) : digitChar10 d ≠ '\n' := by
  unfold digitChar10; split_ifs <;> decide

theorem digitVal_digitChar10 {d : Nat} (h : d < 10) : digitVal (digitChar10 d) = d := by
  unfold digitChar10
  split_ifs with h0 h1 h2 h3 h4 h5 h6 h7 h8
  · subst h0; decide
  · subst h1; decide
  · subst h2; decide
  · subst h3; decide
  · subst h4; decide
  · subst h5; decide
  · subst h6; decide
  · subst h7; decide
  · subst h8; decide
  · have h9 : d = 9 := by omega
    subst h9; decide

theorem natToChars_ne_nil (n : Nat) : natToChars n ≠ [] := by
  unfold natToChars
  split <;> simp

theorem natToChars_mem (n : Nat) : ∀ c ∈ natToChars n, ∃ d, c = digitChar10 d := by
  induction n using Nat.strong_induction_on with
  | _ n ih =>
    intro c hc
    unfold natToChars at hc
    split at hc
    · simp at hc; exact ⟨n, hc⟩
    · rcases List.mem_append.mp hc with h | h
      · exact ih (n / 10) (Nat.div_lt_self (by omega) (by omega)) c h
      · simp at h; exact ⟨n % 10, h⟩

theorem natToChars_not_ws {n : Nat} {c : Char} (h : c ∈ natToChars n) : isWsChar c = false := by
  obtain ⟨d, rfl⟩ := natToChars_mem n c h
  exact digitChar10_not_ws d

theorem natToChars_ne_nl {n : Nat} {c : Char} (h : c ∈ natToChars n) : c ≠ '\n' := by
  obtain ⟨d, rfl⟩ := natToChars_mem n c h
  exact digitChar10_ne_nl d

theorem natToChars_isDigit {n : Nat} {c : Char} (h : c ∈ natToChars n) : c.isDigit = true := by
  obtain ⟨d, rfl⟩ := natToChars_mem n c h
  exact digitChar10_isDigit d

theorem decimalValue_natToChars (n : Nat) : decimalValue (natToChars n) = n := by
  induction n using Nat.strong_induction_on with
  | _ n ih =>
    unfold natToChars
    split
    · simp [decimalValue, digitVal_digitChar10 (by omega : n < 10)]
    · unfold decimalValue
      rw [List.foldl_append]
      simp only [List.foldl_cons, List.foldl_nil]
      have h1 := ih (n / 10) (Nat.div_lt_self (by omega) (by omega))
      unfold decimalValue at h1
      rw [h1, digitVal_digitChar10 (Nat.mod_lt n (by omega))]
      omega

/-! ## String / list facts used by the monitor-output round-trip -/

theorem data_mk (l : List Char) : (String.mk l).data = l := rfl

theorem mk_data (s : String) : String.mk s.data = s := by cases s; rfl

theorem data_append (s t : String) : (s ++ t).data = s.data ++ t.data := by
  cases s; cases t; rfl

theorem mk_ne_empty {l : List Char} (h : l ≠ []) : String.mk l ≠ "" := by
  intro he
  exact h (by simpa using congrArg String.data he)

theorem takeWhile_all {p : Char → Bool} :
    ∀ {l : List Char}, (∀ c ∈ l, p c = true) → l.takeWhile p = l := by
  intro l
  induction l with
  | nil => intro _; rfl
  | cons c cs ih =>
    intro h
    rw [List.takeWhile_cons, h c (by simp)]
    simp [ih fun x hx => h x (by simp [hx])]

theorem jsParseInt_digits (l : List Char) (hne : l ≠ [])
    (hdig : ∀ c ∈ l, c.isDigit = true) :
    jsParseInt (String.mk l) = some ((decimalValue l : Nat) : Int) := by
  obtain ⟨c, cs, rfl⟩ := List.exists_cons_of_ne_nil hne
  have hcdig : c.isDigit = true := hdig c (by simp)
  have hws : isWsChar c = false := by
    revert hcdig
    unfold isWsChar
    by_cases h1 : c = ' '
    · subst h1; decide
    · by_cases h2 : c = '\n'
      · subst h2; decide
      · by_cases h3 : c = '\t'
        · subst h3; decide
        · by_cases h4 : c = '\r'
          · subst h4; decide
          · simp [h1, h2, h3, h4]
  have hm : (c = '-') = False := by
    simp only [eq_iff_iff, iff_false]
    intro h; rw [h] at hcdig; exact absurd hcdig (by decide)
  have hp : (c = '+') = False := by
    simp only [eq_iff_iff, iff_false]
    intro h; rw [h] at hcdig; exact absurd hcdig (by decide)
  unfold jsParseInt
  simp only [data_mk, List.dropWhile_cons, hws, Bool.false_eq_true, if_false,
    List.head?_cons, Option.some.injEq, hm, hp, takeWhile_all hdig,
    List.isEmpty_cons, if_false]

theorem jsParseInt_natToChars (n : Nat) :
    jsParseInt (String.mk (natToChars n)) = some (n : Int) := by
  rw [jsParseInt_digits (natToChars n) (natToChars_ne_nil n)
      (fun c hc => natToChars_isDigit hc),
    decimalValue_natToChars]

theorem splitNl_ne_nil (l : List Char) : splitNl l ≠ [] := by
  cases l with
  | nil => simp [splitNl]
  | cons c rest =>
    simp only [splitNl]
    split
    · simp
    · split <;> simp

theorem splitNl_append (a b : List Char) :
    splitNl (a ++ '\n' :: b) = splitNl a ++ splitNl b := by
  induction a with
  | nil => simp [splitNl]
  | cons c a' ih =>
    by_cases hc : c = '\n'
    · subst hc
      simp [splitNl, ih]
    · simp only [List.cons_append, splitNl, if_neg hc]
      cases h : splitNl a' with
      | nil => exact absurd h (splitNl_ne_nil a')
      | cons x xs =>
        have ih2 : splitNl (a'.append ('\n' :: b)) = splitNl a' ++ splitNl b := ih
        rw [ih2, h]
        simp

theorem splitNl_no_nl (l : List Char) (h : ∀ c ∈ l, c ≠ '\n') : splitNl l = [l] := by
  induction l with
  | nil => rfl
  | cons c rest ih =>
    simp only [splitNl, if_neg (h c (by simp))]
    rw [ih (fun x hx => h x (by simp [hx]))]

theorem joinNl_splitNl (l : List Char) : joinNl (splitNl l) = l := by
  induction l with
  | nil => rfl
  | cons c rest ih =>
    by_cases hc : c = '\n'
    · subst hc
      simp only [splitNl, if_pos rfl]
      cases h : splitNl rest with
      | nil => exact absurd h (splitNl_ne_nil rest)
      | cons x xs =>
        rw [h] at ih
        show joinNl ([] :: x :: xs) = '\n' :: rest
        show [] ++ '\n' :: joinNl (x :: xs) = '\n' :: rest
        rw [ih]
        rfl
    · simp only [splitNl, if_neg hc]
      cases h : splitNl rest with
      | nil => exact absurd h (splitNl_ne_nil rest)
      | cons x xs =>
        rw [h] at ih
        cases xs with
        | nil =>
          show joinNl [c :: x] = c :: rest
          have hx : x = rest := ih
          rw [hx]
          rfl
        | cons y ys =>
          show (c :: x) ++ '\n' :: joinNl (y :: ys) = c :: rest
          have hx : x ++ '\n' :: joinNl (y :: ys) = rest := ih
          rw [← hx]
          rfl

theorem dropWhile_cons_neg {p : Char → Bool} {c : Char} {l : List Char} (h : p c = false) :
    (c :: l).dropWhile p = c :: l := by
  rw [List.dropWhile_cons, h]
  simp

/-- Trimming the monitor's full output: a possibly empty `front` whose first
character (if any) is not whitespace, a newline, a whitespace-free nonempty
`mid`, and the final newline.  The trim removes exactly the final newline
and, when `front` is empty, the now-leading newline. -/
theorem trimChars_wrap (front mid : List Char)
    (hf : ∀ c, front.head? = some c → isWsChar c = false)
    (hmid_ne : mid ≠ [])
    (hhead : ∀ c, mid.head? = some c → isWsChar c = false)
    (hlast : ∀ c, mid.getLast? = some c → isWsChar c = false) :
    trimChars (front ++ '\n' :: (mid ++ ['\n'])) =
      (if front = [] then mid else front ++ '\n' :: mid) := by
  obtain ⟨m0, mid', rfl⟩ := List.exists_cons_of_ne_nil hmid_ne
  have hm0 : isWsChar m0 = false := hhead m0 (by simp)
  obtain ⟨e, rev', hrev⟩ :
      ∃ e rev', (m0 :: mid').reverse = e :: rev' := by
    cases hr : (m0 :: mid').reverse with
    | nil => exact absurd (by simpa using congrArg List.reverse hr) (List.cons_ne_nil m0 mid')
    | cons e rev' => exact ⟨e, rev', rfl⟩
  have he : isWsChar e = false := by
    apply hlast
    rw [← List.head?_reverse, hrev]
    rfl
  unfold trimChars
  cases front with
  | nil =>
    rw [if_pos rfl]
    have h1 : List.dropWhile isWsChar ([] ++ '\n' :: ((m0 :: mid') ++ ['\n'])) =
        m0 :: (mid' ++ ['\n']) := by
      simp only [List.nil_append, List.cons_append]
      rw [List.dropWhile_cons]
      simp only [show isWsChar '\n' = true from rfl, if_true]
      exact dropWhile_cons_neg hm0
    rw [h1]
    have h2 : (m0 :: (mid' ++ ['\n'])).reverse = '\n' :: (m0 :: mid').reverse := by
      simp
    rw [h2, List.dropWhile_cons]
    simp only [show isWsChar '\n' = true from rfl, if_true]
    rw [hrev, dropWhile_cons_neg he, ← hrev, List.reverse_reverse]
  | cons f front' =>
    have hfws : isWsChar f = false := hf f (by simp)
    rw [if_neg (by simp : ¬ (f :: front' = []))]
    have h1 : List.dropWhile isWsChar ((f :: front') ++ '\n' :: ((m0 :: mid') ++ ['\n'])) =
        f :: (front' ++ '\n' :: ((m0 :: mid') ++ ['\n'])) := by
      simp only [List.cons_append]
      exact dropWhile_cons_neg hfws
    rw [h1]
    have h2 : (f :: (front' ++ '\n' :: ((m0 :: mid') ++ ['\n']))).reverse =
        '\n' :: ((m0 :: mid').reverse ++ '\n' :: (front'.reverse ++ [f])) := by
      simp
    rw [h2, List.dropWhile_cons]
    simp only [show isWsChar '\n' = true from rfl, if_true]
    rw [hrev]
    have h3 : (e :: rev') ++ '\n' :: (front'.reverse ++ [f]) =
        e :: (rev' ++ '\n' :: (front'.reverse ++ [f])) := rfl
    rw [h3, dropWhile_cons_neg he, ← h3, ← hrev]
    have h4 : ((m0 :: mid').reverse ++ '\n' :: (front'.reverse ++ [f])).reverse =
        (f :: front') ++ '\n' :: (m0 :: mid') := by
      simp
    rw [h4]

theorem getLast?_append_ne {α : Type} (l r : List α) (h : r ≠ []) :
    (l ++ r).getLast? = r.getLast? := by
  rw [← List.head?_reverse, ← List.head?_reverse]
  rw [List.reverse_append]
  cases hr : r.reverse with
  | nil => exact absurd (by simpa using congrArg List.reverse hr) h
  | cons e es => simp

theorem mem_of_getLast?_eq {α : Type} {l : List α} {a : α} (h : l.getLast? = some a) :
    a ∈ l := by
  rw [← List.head?_reverse] at h
  have hm : a ∈ l.reverse := by
    cases hr : l.reverse with
    | nil => rw [hr] at h; cases h
    | cons x xs =>
      rw [hr] at h
      simp only [List.head?_cons, Option.some.injEq] at h
      simp [h]
  simpa using hm

theorem dropLast_snoc {α : Type} (l : List α) (a : α) : (l ++ [a]).dropLast = l := by
  simp

theorem jsOrOpt_some_ne {s d : String} (h : s ≠ "") : jsOrOpt (some s) d = s := by
  show jsOrS s d = s
  unfold jsOrS
  rw [if_neg h]

theorem jsJoinNl_map_mk_splitNl (l : List Char) :
    jsJoinNl ((splitNl l).map String.mk) = String.mk l := by
  unfold jsJoinNl
  congr 1
  rw [List.map_map]
  have hcomp : (String.data ∘ String.mk) = id := by
    funext x; rfl
  rw [hcomp, List.map_id, joinNl_splitNl]

/-- The pop/pop/join parse applied to a line list that decomposes as
`pre ++ [lt, lm]`. -/
theorem parseMonitorOutput_decomp (s : String) (pre : List String) (lt lm : String)
    (h : jsSplitNl (jsTrim s) = pre ++ [lt, lm]) :
    parseMonitorOutput s =
      { programOutput := jsJoinNl pre
        timeMS := jsParseInt (jsOrOpt (some lt) "0")
        memoryKB := jsParseInt (jsOrOpt (some lm) "0") } := by
  simp only [parseMonitorOutput, h]
  have h1 : (pre ++ [lt, lm]).getLast? = some lm := by
    rw [getLast?_append_ne _ _ (by simp)]
    rfl
  have h2 : (pre ++ [lt, lm]).dropLast = pre ++ [lt] := by
    rw [show pre ++ [lt, lm] = (pre ++ [lt]) ++ [lm] by simp]
    exact dropLast_snoc _ _
  have h3 : (pre ++ [lt]).getLast? = some lt := by
    rw [getLast?_append_ne _ _ (by simp)]
    rfl
  have h4 : (pre ++ [lt]).dropLast = pre := dropLast_snoc _ _
  rw [h1, h2, h3, h4]

/-- Round trip through the timeout-variant monitor's stdout convention:
if the inner command's captured stdout is `body ++ "\n"` and `body` does
not start with whitespace, the caller's parse recovers `body`, the elapsed
milliseconds and the peak memory exactly. -/
theorem parse_timeout_monitor_output (body : String) (t m : Nat)
    (hb : ∀ c, body.data.head? = some c → isWsChar c = false) :
    parseMonitorOutput (timeoutMonitorOutput (body ++ "\n") t m) =
      { programOutput := body, timeMS := some (t : Int), memoryKB := some (m : Int) } := by
  have hdtne := natToChars_ne_nil t
  have hdmne := natToChars_ne_nil m
  have hmidne : natToChars t ++ '\n' :: natToChars m ≠ [] := by simp
  have hmidhead : ∀ c, (natToChars t ++ '\n' :: natToChars m).head? = some c →
      isWsChar c = false := by
    obtain ⟨c0, cs, hdt⟩ := List.exists_cons_of_ne_nil hdtne
    rw [hdt]
    intro c hc
    simp only [List.cons_append, List.head?_cons, Option.some.injEq] at hc
    subst hc
    exact natToChars_not_ws (by rw [hdt]; simp)
  have hmidlast : ∀ c, (natToChars t ++ '\n' :: natToChars m).getLast? = some c →
      isWsChar c = false := by
    intro c hc
    rw [show ('\n' :: natToChars m) = ['\n'] ++ natToChars m from rfl,
      ← List.append_assoc, getLast?_append_ne _ _ hdmne] at hc
    exact natToChars_not_ws (mem_of_getLast?_eq hc)
  have hdata : (timeoutMonitorOutput (body ++ "\n") t m).data =
      body.data ++ '\n' :: ((natToChars t ++ '\n' :: natToChars m) ++ ['\n']) := by
    unfold timeoutMonitorOutput
    simp [data_append, data_mk, show ("\n").data = ['\n'] from rfl]
  have htrim : trimChars (timeoutMonitorOutput (body ++ "\n") t m).data =
      (if body.data = [] then natToChars t ++ '\n' :: natToChars m
       else body.data ++ '\n' :: (natToChars t ++ '\n' :: natToChars m)) := by
    rw [hdata]
    exact trimChars_wrap body.data _ hb hmidne hmidhead hmidlast
  have hsplit_dt : splitNl (natToChars t) = [natToChars t] :=
    splitNl_no_nl _ (fun c hc => natToChars_ne_nl hc)
  have hsplit_dm : splitNl (natToChars m) = [natToChars m] :=
    splitNl_no_nl _ (fun c hc => natToChars_ne_nl hc)
  by_cases hbody : body.data = []
  · have hbody' : body = "" := by
      rw [← mk_data body, hbody]
    have hlines : jsSplitNl (jsTrim (timeoutMonitorOutput (body ++ "\n") t m)) =
        [] ++ [String.mk (natToChars t), String.mk (natToChars m)] := by
      unfold jsSplitNl jsTrim
      rw [data_mk, htrim, if_pos hbody, splitNl_append, hsplit_dt, hsplit_dm]
      rfl
    have hjoin : jsJoinNl ([] : List String) = "" := rfl
    rw [parseMonitorOutput_decomp _ _ _ _ hlines,
      jsOrOpt_some_ne (mk_ne_empty hdtne), jsOrOpt_some_ne (mk_ne_empty hdmne),
      jsParseInt_natToChars, jsParseInt_natToChars, hjoin, hbody']
  · have hlines : jsSplitNl (jsTrim (timeoutMonitorOutput (body ++ "\n") t m)) =
        (splitNl body.data).map String.mk ++
          [String.mk (natToChars t), String.mk (natToChars m)] := by
      unfold jsSplitNl jsTrim
      rw [data_mk, htrim, if_neg hbody, splitNl_append, splitNl_append,
        hsplit_dt, hsplit_dm]
      simp
    rw [parseMonitorOutput_decomp _ _ _ _ hlines,
      jsOrOpt_some_ne (mk_ne_empty hdtne), jsOrOpt_some_ne (mk_ne_empty hdmne),
      jsParseInt_natToChars, jsParseInt_natToChars, jsJoinNl_map_mk_splitNl, mk_data]

/-- C5 counterexample: the parse does not recover the captured stdout
exactly.  For an inner command whose captured stdout is S = "HELLO\n"
(any program whose final write ends in a newline), elapsed 42 ms and peak
7 KB, the reported stdout is "HELLO", which differs from S: the parse
drops S's trailing newline, so (S, T, M) is not recovered exactly. -/
theorem monitor_tail_counterexample :
    (parseMonitorOutput (timeoutMonitorOutput ("HELLO" ++ "\n") 42 7)).programOutput
      = "HELLO" ∧
    "HELLO" ≠ "HELLO" ++ "\n" := by
  constructor
  · rw [parse_timeout_monitor_output "HELLO" 42 7 (by
      intro c hc
      have h : "HELLO".data.head? = some 'H' := rfl
      rw [h] at hc
      cases hc
      decide)]
  · decide

/-- C5 (amended): the timeout-variant monitor writes the captured stdout S
of the inner command followed by two trailing lines, elapsed milliseconds
then peak memory KB.  Whenever S is newline-terminated (or empty) and does
not begin with a whitespace character, the caller's pop/pop/rejoin parse
recovers T as timeMS, M as memoryKB, and S stripped of its final newline
as the reported stdout — not S byte-for-byte; when S lacks a final newline
the time line fuses with S's last line and the parse misreports. -/
theorem monitor_tail_roundtrip (body : String) (t m : Nat)
    (hb : ∀ c, body.data.head? = some c → isWsChar c = false) :
    timeoutMonitorOutput (body ++ "\n") t m =
      (body ++ "\n") ++ String.mk (natToChars t) ++ "\n" ++ String.mk (natToChars m) ++ "\n" ∧
    parseMonitorOutput (timeoutMonitorOutput (body ++ "\n") t m) =
      { programOutput := body, timeMS := some (t : Int), memoryKB := some (m : Int) } :=
  ⟨rfl, parse_timeout_monitor_output body t m hb⟩

/-- Witness for `monitor_tail_roundtrip` at body "OK", 5 ms, 9 KB. -/
theorem monitor_tail_roundtrip_witness :
    timeoutMonitorOutput ("OK" ++ "\n") 5 9 =
      ("OK" ++ "\n") ++ String.mk (natToChars 5) ++ "\n" ++ String.mk (natToChars 9) ++ "\n" ∧
    parseMonitorOutput (timeoutMonitorOutput ("OK" ++ "\n") 5 9) =
      { programOutput := "OK", timeMS := some 5, memoryKB := some 9 } :=
  monitor_tail_roundtrip "OK" 5 9 (by
    intro c hc
    have h : "OK".data.head? = some 'O' := rfl
    rw [h] at hc
    cases hc
    decide)

/-- C7 counterexample: the timeout-variant monitor reports the measured
elapsed time unclamped.  A run with time limit 1000 ms whose measured
elapsed time is 1500 ms (timeout's grace period allows this) reports
timeMS = 1500 to the caller, which exceeds the 1000 ms ceiling. -/
theorem elapsed_unclamped_counterexample :
    (parseMonitorOutput (timeoutMonitorOutput ("x" ++ "\n") 1500 7)).timeMS = some 1500 ∧
    ¬ ((1500 : Int) ≤ (1000 : Int)) := by
  constructor
  · rw [parse_timeout_monitor_output "x" 1500 7 (by
      intro c hc
      have h : "x".data.head? = some 'x' := rfl
      rw [h] at hc
      cases hc
      decide)]
    rfl
  · decide

/-- C7 (amended): only the polling-variant monitor clamps: its final
report step returns min(measured, limit), hence a reported elapsed time
never exceeding the configured limit; the timeout variant reports the
measured time unclamped (see the counterexample). -/
theorem polling_elapsed_clamped :
    ∀ (executionTime timeLimitMs : Nat) (timeExceeded : Bool),
      (pollingClampTime executionTime timeLimitMs timeExceeded).1 =
        min executionTime timeLimitMs ∧
      (pollingClampTime executionTime timeLimitMs timeExceeded).1 ≤ timeLimitMs := by
  intro e T f
  have h : (pollingClampTime e T f).1 = min e T := by
    unfold pollingClampTime
    by_cases h : e > T
    · rw [if_pos h, Nat.min_def, if_neg (by omega)]
    · rw [if_neg h, Nat.min_def, if_pos (by omega)]
  exact ⟨h, by rw [h]; exact Nat.min_le_right e T⟩

theorem checkChildren_exceeded {M : Nat} :
    ∀ {mx : Nat} {cs : List Nat}, (checkChildren M mx cs).2 = true → ∃ c ∈ cs, M < c := by
  intro mx cs
  induction cs generalizing mx with
  | nil => intro h; simp [checkChildren] at h
  | cons c cs ih =>
    intro h
    simp only [checkChildren] at h
    by_cases hc : M < c
    · exact ⟨c, by simp, hc⟩
    · rw [if_neg hc] at h
      obtain ⟨d, hd, hdM⟩ := ih h
      exact ⟨d, by simp [hd], hdM⟩

theorem checkChildren_ok {M : Nat} :
    ∀ {mx : Nat} {cs : List Nat}, (∀ c ∈ cs, c ≤ M) → (checkChildren M mx cs).2 = false := by
  intro mx cs
  induction cs generalizing mx with
  | nil => intro _; simp [checkChildren]
  | cons c cs ih =>
    intro h
    simp only [checkChildren]
    rw [if_neg (by have := h c (by simp); omega)]
    exact ih (fun d hd => h d (by simp [hd]))

/-- C6: the polling-variant monitor kills for a memory breach only when a
sampled memory value (the child's own or a descendant's) is strictly
greater than the configured limit — a sample exactly equal to the limit
continues the loop — and kills for a time breach exactly when the elapsed
milliseconds are greater than or equal to the configured limit. -/
theorem polling_limit_comparisons (T M : Nat) :
    (∀ (mx : Nat) (samples : List Sample),
       (pollLoop T M mx samples).1 = MonExit.memKill →
       ∃ s ∈ samples, (∃ v, s.memKb = some v ∧ M < v) ∨ (∃ c ∈ s.childMemKb, M < c)) ∧
    (∀ (mx : Nat) (samples : List Sample),
       (pollLoop T M mx samples).1 = MonExit.timeKill →
       ∃ s ∈ samples, T ≤ s.elapsedMs) ∧
    (∀ (mx : Nat) (s : Sample) (rest : List Sample),
       s.elapsedMs < T → (∀ v, s.memKb = some v → v ≤ M) → (∀ c ∈ s.childMemKb, c ≤ M) →
       pollLoop T M mx (s :: rest) =
         pollLoop T M (checkChildren M (ownMax mx s.memKb) s.childMemKb).1 rest) ∧
    (∀ (mx : Nat) (s : Sample) (rest : List Sample),
       T ≤ s.elapsedMs →
       pollLoop T M mx (s :: rest) = (MonExit.timeKill, mx)) := by
  have hcont : ∀ (mx : Nat) (s : Sample) (rest : List Sample),
      s.elapsedMs < T → (∀ v, s.memKb = some v → v ≤ M) → (∀ c ∈ s.childMemKb, c ≤ M) →
      pollLoop T M mx (s :: rest) =
        pollLoop T M (checkChildren M (ownMax mx s.memKb) s.childMemKb).1 rest := by
    intro mx s rest h1 h2 h3
    have ho : ownExceeded M s.memKb = false := by
      cases hm : s.memKb with
      | none => rfl
      | some v =>
        simp only [ownExceeded, decide_eq_false_iff_not]
        have := h2 v hm
        omega
    have hch : (checkChildren M (ownMax mx s.memKb) s.childMemKb).2 = false :=
      checkChildren_ok h3
    simp only [pollLoop]
    rw [if_neg (by omega), if_neg (by simp [ho]), if_neg (by simp [hch])]
  refine ⟨?_, ?_, hcont, ?_⟩
  · intro mx samples
    induction samples generalizing mx with
    | nil => intro h; simp [pollLoop] at h
    | cons s rest ih =>
      intro h
      simp only [pollLoop] at h
      split at h
      next ht => simp at h
      next ht =>
        split at h
        next ho =>
          refine ⟨s, by simp, Or.inl ?_⟩
          cases hm : s.memKb with
          | none => rw [hm] at ho; simp [ownExceeded] at ho
          | some v =>
            rw [hm] at ho
            simp only [ownExceeded, decide_eq_true_eq] at ho
            exact ⟨v, rfl, ho⟩
        next ho =>
          split at h
          next hch =>
            exact ⟨s, by simp, Or.inr (checkChildren_exceeded hch)⟩
          next hch =>
            obtain ⟨s2, hs2, hp⟩ := ih _ h
            exact ⟨s2, by simp [hs2], hp⟩
  · intro mx samples
    induction samples generalizing mx with
    | nil => intro h; simp [pollLoop] at h
    | cons s rest ih =>
      intro h
      simp only [pollLoop] at h
      split at h
      next ht => exact ⟨s, by simp, ht⟩
      next ht =>
        split at h
        next ho => simp at h
        next ho =>
          split at h
          next hch => simp at h
          next hch =>
            obtain ⟨s2, hs2, hp⟩ := ih _ h
            exact ⟨s2, by simp [hs2], hp⟩
  · intro mx s rest h
    simp only [pollLoop]
    rw [if_pos h]

/-- Witness for `polling_limit_comparisons`: with limit 50 KB, a sample of
exactly 50 KB (own and child) at 10 ms continues the loop; with limit
100 ms, a sample at exactly 100 ms is killed for time. -/
theorem polling_limit_comparisons_witness :
    pollLoop 100 50 0 [⟨10, some 50, [50]⟩] =
      pollLoop 100 50 (checkChildren 50 (ownMax 0 (some 50)) [50]).1 [] ∧
    pollLoop 100 50 0 [⟨100, some 0, []⟩, ⟨1, none, []⟩] = (MonExit.timeKill, 0) := by
  constructor
  · exact (polling_limit_comparisons 100 50).2.2.1 0 ⟨10, some 50, [50]⟩ []
      (by decide)
      (by intro v hv
          have hv2 : some 50 = some v := hv
          cases hv2
          decide)
      (by intro c hc
          have hc2 : c ∈ [50] := hc
          simp at hc2
          omega)
  · exact (polling_limit_comparisons 100 50).2.2.2 0 ⟨100, some 0, []⟩ [⟨1, none, []⟩]
      (by decide)

theorem isB64_b64Char (n : Nat) : isBase64OutChar (b64Char n) = true := by
  by_cases h : n < 64
  · have h64 : ∀ i : Fin 64, isBase64OutChar (b64Char i.val) = true := by decide
    exact h64 ⟨n, h⟩
  · unfold b64Char
    rw [List.getD_eq_default]
    · decide
    · have hlen : base64Chars.length = 64 := by decide
      omega

theorem btoaBytes_safe :
    ∀ (bytes : List Nat) (c : Char), c ∈ btoaBytes bytes → isBase64OutChar c = true
  | [], c, h => by simp [btoaBytes] at h
  | [a], c, h => by
    simp only [btoaBytes, List.mem_cons, List.not_mem_nil, or_false] at h
    rcases h with h | h | h | h <;> subst h <;>
      first
      | exact isB64_b64Char _
      | decide
  | [a, b], c, h => by
    simp only [btoaBytes, List.mem_cons, List.not_mem_nil, or_false] at h
    rcases h with h | h | h | h <;> subst h <;>
      first
      | exact isB64_b64Char _
      | decide
  | a :: b :: d :: rest, c, h => by
    simp only [btoaBytes, List.mem_cons] at h
    rcases h with h | h | h | h | h
    · subst h; exact isB64_b64Char _
    · subst h; exact isB64_b64Char _
    · subst h; exact isB64_b64Char _
    · subst h; exact isB64_b64Char _
    · exact btoaBytes_safe rest c h

theorem b64_out_safe {c : Char} (h : isBase64OutChar c = true) :
    c ≠ '"' ∧ c ≠ '\\' ∧ c ≠ '\n' := by
  refine ⟨?_, ?_, ?_⟩ <;> intro heq <;> subst heq <;> revert h <;> decide

/-- C9: for every interpreted-language test case and every stdin byte
sequence, the stdin embedded into the rewritten source is its btoa
transport encoding spliced between fixed template pieces — never the raw
bytes — and every character of the embedded blob is in the base64 output
alphabet, hence never a quote, backslash or newline, so the string literal
carrying it (and with it the generated source) always parses. -/
theorem stdin_transport_encoded :
    (∀ (code : String) (stdin : List Nat),
       jsSetupStdinSR code stdin = jsTplA ++ btoaStr stdin ++ jsTplB ++ code ++ jsTplC ∧
       pySetupStdinSR code stdin = pyTplA ++ btoaStr stdin ++ pyTplB ++ code ++ pyTplC) ∧
    (∀ (stdin : List Nat) (c : Char), c ∈ (btoaStr stdin).data →
       isBase64OutChar c = true ∧ c ≠ '"' ∧ c ≠ '\\' ∧ c ≠ '\n') := by
  refine ⟨fun code stdin => ⟨rfl, rfl⟩, fun stdin c hc => ?_⟩
  have h := btoaBytes_safe stdin c hc
  exact ⟨h, b64_out_safe h⟩

theorem jsOrS_empty (s : String) : jsOrS s "" = s := by
  unfold jsOrS
  by_cases h : s = ""
  · rw [if_pos h, h]
  · rw [if_neg h]

theorem getD_default {α : Type} :
    ∀ (l : List α) (n : Nat) (d : α), l.length ≤ n → l.getD n d = d
  | [], n, d, _ => by simp [List.getD]
  | a :: t, 0, d, h => by simp at h
  | a :: t, n+1, d, h => by
    have : (a :: t).getD (n+1) d = t.getD n d := by simp [List.getD]
    rw [this]
    exact getD_default t n d (by simpa using h)

theorem jsInputCall_reverse (l : List String) :
    jsInputCall l.reverse = (l.headD "", l.tail.reverse) := by
  cases l with
  | nil => rfl
  | cons a t =>
    unfold jsInputCall
    have h1 : (a :: t).reverse.getLast? = some a := by
      rw [List.reverse_cons, getLast?_append_ne _ _ (by simp)]
      rfl
    have h2 : (a :: t).reverse.dropLast = t.reverse := by
      rw [List.reverse_cons]
      exact dropLast_snoc _ _
    rw [h1, h2]
    show (jsOrS a "", t.reverse) = ((a :: t).headD "", (a :: t).tail.reverse)
    rw [jsOrS_empty]
    rfl

theorem callN_jsInput :
    ∀ (k : Nat) (l : List String), callN jsInputCall l.reverse k = l.getD k "" := by
  intro k
  induction k with
  | zero =>
    intro l
    show (jsInputCall l.reverse).1 = l.getD 0 ""
    rw [jsInputCall_reverse]
    cases l <;> rfl
  | succ k ih =>
    intro l
    show callN jsInputCall (jsInputCall l.reverse).2 k = l.getD (k+1) ""
    rw [jsInputCall_reverse]
    cases l with
    | nil => exact ih []
    | cons a t =>
      have := ih t
      simpa [List.getD] using this

theorem pyCallN_getD :
    ∀ (k : Nat) (lines : List String) (i : Nat), pyCallN lines i k = lines.getD (i + k) "" := by
  intro k
  induction k with
  | zero =>
    intro lines i
    show (pyInputCall lines i).1 = lines.getD (i + 0) ""
    unfold pyInputCall
    by_cases h : i < lines.length
    · rw [if_pos h]
      simp
    · rw [if_neg h]
      rw [getD_default lines (i + 0) "" (by omega)]
  | succ k ih =>
    intro lines i
    show pyCallN lines (pyInputCall lines i).2 k = lines.getD (i + (k+1)) ""
    unfold pyInputCall
    by_cases h : i < lines.length
    · rw [if_pos h]
      have := ih lines (i + 1)
      rw [this]
      congr 1
      omega
    · rw [if_neg h]
      rw [ih lines i, getD_default lines (i + k) "" (by omega),
        getD_default lines (i + (k+1)) "" (by omega)]

/-- C10 counterexample: the Python preamble strips the whole decoded blob
before splitting, so a stdin that begins with a blank line loses it: for
decoded stdin "\nA" the first call of the injected Python input() returns
"A", while the decoded stdin's first line is "". -/
theorem python_input_strip_counterexample :
    pyCallN (pyInputLines ("\nA")) 0 0 = "A" ∧
    (jsSplitNl ("\nA")).getD 0 "" = "" ∧
    ("A" : String) ≠ "" := by
  refine ⟨by decide, by decide, by decide⟩

/-- C10 (amended): the injected JavaScript input() returns, at its k-th
call, the k-th line of the decoded stdin trimmed of whitespace, and the
empty string at every call past exhaustion; the injected Python input()
returns the k-th line of the whitespace-STRIPPED decoded stdin (leading
and trailing blank content of the whole blob is removed before splitting,
so e.g. a leading blank line is lost), and the empty string past
exhaustion; neither ever blocks or throws. -/
theorem injected_input_call_semantics :
    (∀ (d : String) (k : Nat),
       callN jsInputCall (jsInputInit d) k = (jsInputLines d).getD k "") ∧
    (∀ (d : String) (k : Nat),
       pyCallN (pyInputLines d) 0 k = (pyInputLines d).getD k "") ∧
    (∀ (d : String) (k : Nat), (jsInputLines d).length ≤ k →
       callN jsInputCall (jsInputInit d) k = "") ∧
    (∀ (d : String) (k : Nat), (pyInputLines d).length ≤ k →
       pyCallN (pyInputLines d) 0 k = "") := by
  refine ⟨fun d k => callN_jsInput k (jsInputLines d),
          fun d k => by simpa using pyCallN_getD k (pyInputLines d) 0,
          fun d k h => ?_, fun d k h => ?_⟩
  · unfold jsInputInit
    rw [callN_jsInput k (jsInputLines d), getD_default _ _ _ h]
  · rw [pyCallN_getD k (pyInputLines d) 0, getD_default _ _ _ (by simpa using h)]

/-- Witness for `injected_input_call_semantics`: for decoded stdin
"a\nb" (two lines) the sixth call of either injected input() returns the
empty string. -/
theorem injected_input_call_semantics_witness :
    callN jsInputCall (jsInputInit ("a\nb")) 5 = "" ∧
    pyCallN (pyInputLines ("a\nb")) 0 5 = "" := by
  constructor
  · exact injected_input_call_semantics.2.2.1 ("a\nb") 5 (by decide)
  · exact injected_input_call_semantics.2.2.2 ("a\nb") 5 (by decide)

theorem noDestroy_nil : NoDestroy [] := by
  intro e he
  cases he

theorem noDestroy_append {a b : List Event} (ha : NoDestroy a) (hb : NoDestroy b) :
    NoDestroy (a ++ b) := by
  intro e he
  rcases List.mem_append.mp he with h | h
  · exact ha e h
  · exact hb e h

theorem noDestroy_doExec (cmd : String) (env : List Resp) :
    NoDestroy (doExec cmd env).2.2 := by
  intro e he
  simp only [doExec, List.mem_singleton] at he
  subst he
  simp

theorem noDestroy_doWrite (path content : String) (env : List Resp) :
    NoDestroy (doWrite path content env).2.2 := by
  intro e he
  simp only [doWrite, List.mem_singleton] at he
  subst he
  simp

theorem noDestroy_doSend (tag : String) (env : List Resp) :
    NoDestroy (doSend tag env).2.2 := by
  intro e he
  simp only [doSend, List.mem_singleton] at he
  subst he
  simp

theorem noDestroy_andThenE {α β : Type} (s : Except String α × List Resp × List Event)
    (f : α → List Resp → Except String β × List Resp × List Event)
    (hs : NoDestroy s.2.2) (hf : ∀ a env, NoDestroy (f a env).2.2) :
    NoDestroy (andThenE s f).2.2 := by
  unfold andThenE
  cases h : s.1 with
  | error m => exact hs
  | ok a => exact noDestroy_append hs (hf a s.2.1)

theorem noDestroy_catchE {α : Type} (s : Except String α × List Resp × List Event)
    (h : String → List Resp → Except String α × List Resp × List Event)
    (hs : NoDestroy s.2.2) (hh : ∀ m env, NoDestroy (h m env).2.2) :
    NoDestroy (catchE s h).2.2 := by
  unfold catchE
  cases hr : s.1 with
  | ok a => exact hs
  | error m => exact noDestroy_append hs (hh m s.2.1)

theorem noDestroy_ite {c : Prop} [Decidable c]
    (x y : Except String Unit × List Resp × List Event)
    (hx : NoDestroy x.2.2) (hy : NoDestroy y.2.2) :
    NoDestroy (if c then x else y).2.2 := by
  split
  · exact hx
  · exact hy

theorem noDestroy_runTestOps (cfg : LanguageConfig) (code : String) (tc : TestCase)
    (env : List Resp) : NoDestroy (runTestOps cfg code tc env).2.2 := by
  unfold runTestOps
  apply noDestroy_andThenE
  · exact noDestroy_ite _ _ noDestroy_nil (noDestroy_doWrite _ _ _)
  · intro a env1
    apply noDestroy_andThenE
    · exact noDestroy_ite _ _ (noDestroy_doWrite _ _ _) noDestroy_nil
    · intro a2 env2
      exact noDestroy_doExec _ _

theorem noDestroy_runTestCase (cfg : LanguageConfig) (code : String) (i : Nat)
    (tc : TestCase) (env : List Resp) : NoDestroy (runTestCase cfg code i tc env).2.2 := by
  unfold runTestCase
  have h := noDestroy_runTestOps cfg code tc env
  rcases hr : runTestOps cfg code tc env with ⟨res, env1, ev1⟩
  rw [hr] at h
  cases res <;> exact h

theorem noDestroy_runTests (cfg : LanguageConfig) (code : String) :
    ∀ (tcs : List TestCase) (i : Nat) (env : List Resp),
      NoDestroy (runTests cfg code i tcs env).2.2
  | [], _, _ => noDestroy_nil
  | tc :: rest, i, env => by
    show NoDestroy ((runTestCase cfg code i tc env).2.2 ++
      (runTests cfg code (i+1) rest (runTestCase cfg code i tc env).2.1).2.2)
    exact noDestroy_append (noDestroy_runTestCase cfg code i tc env)
      (noDestroy_runTests cfg code rest (i+1) _)

theorem noDestroy_execBody (cfg : LanguageConfig) (code : String) (tcs : List TestCase)
    (env : List Resp) : NoDestroy (execBody cfg code tcs env).2.2 := by
  unfold execBody
  apply noDestroy_andThenE _ _ (noDestroy_doExec _ _)
  intro a env1
  apply noDestroy_andThenE _ _ (noDestroy_doWrite _ _ _)
  intro a2 env2
  cases hc : cfg.isCompiled <;> cases hcc : cfg.compileCommand
  · exact noDestroy_runTests cfg code tcs 0 env2
  · exact noDestroy_runTests cfg code tcs 0 env2
  · exact noDestroy_runTests cfg code tcs 0 env2
  · apply noDestroy_andThenE _ _ (noDestroy_doExec _ _)
    intro cr env3
    split
    · exact noDestroy_nil
    · exact noDestroy_runTests cfg code tcs 0 env3

theorem noDestroy_runStreamTest (cfg : LanguageConfig) (code : String) (i : Nat)
    (tc : TestCase) (env : List Resp) : NoDestroy (runStreamTest cfg code i tc env).2.2 := by
  unfold runStreamTest
  apply noDestroy_catchE
  · apply noDestroy_andThenE _ _ (noDestroy_runTestOps cfg code tc env)
    intro a env1
    exact noDestroy_doSend _ _
  · intro m env1
    exact noDestroy_doSend _ _

theorem noDestroy_runStreamTests (cfg : LanguageConfig) (code : String) :
    ∀ (tcs : List TestCase) (i : Nat) (env : List Resp),
      NoDestroy (runStreamTests cfg code i tcs env).2.2
  | [], _, _ => noDestroy_nil
  | tc :: rest, i, env => by
    show NoDestroy (andThenE (runStreamTest cfg code i tc env)
      (fun _ env1 => runStreamTests cfg code (i+1) rest env1)).2.2
    apply noDestroy_andThenE _ _ (noDestroy_runStreamTest cfg code i tc env)
    intro a env1
    exact noDestroy_runStreamTests cfg code rest (i+1) env1

theorem noDestroy_streamBody (cfg : LanguageConfig) (code : String) (tcs : List TestCase)
    (env : List Resp) : NoDestroy (streamBody cfg code tcs env).2.2 := by
  unfold streamBody
  apply noDestroy_andThenE _ _ (noDestroy_doExec _ _)
  intro a env1
  apply noDestroy_andThenE _ _ (noDestroy_doWrite _ _ _)
  intro a2 env2
  cases hc : cfg.isCompiled <;> cases hcc : cfg.compileCommand
  · apply noDestroy_andThenE _ _ (noDestroy_runStreamTests cfg code tcs 0 env2)
    intro a3 env3
    exact noDestroy_doSend _ _
  · apply noDestroy_andThenE _ _ (noDestroy_runStreamTests cfg code tcs 0 env2)
    intro a3 env3
    exact noDestroy_doSend _ _
  · apply noDestroy_andThenE _ _ (noDestroy_runStreamTests cfg code tcs 0 env2)
    intro a3 env3
    exact noDestroy_doSend _ _
  · apply noDestroy_andThenE _ _ (noDestroy_doExec _ _)
    intro cr env3
    split
    · exact noDestroy_doSend _ _
    · apply noDestroy_andThenE _ _ (noDestroy_runStreamTests cfg code tcs 0 env3)
      intro a3 env4
      exact noDestroy_doSend _ _

theorem countP_destroy_of_noDestroy {evs : List Event} (h : NoDestroy evs) :
    evs.countP (fun e => decide (e = Event.destroyCall)) = 0 := by
  rw [List.countP_eq_zero]
  intro a ha
  simp only [decide_eq_true_eq]
  exact h a ha

/-- C3: on every exit path of a session — normal completion, compile
failure, per-test error, session-wide error, send failure — the backing
sandbox's destroy is invoked exactly once, as the final interaction before
the entry point returns; this holds for the sequential and the streaming
executor alike, for every response script. -/
theorem session_teardown_exactly_once :
    (∀ (cfg : LanguageConfig) (code : String) (tcs : List TestCase) (env : List Resp),
       (executeCodeSequential cfg code tcs env).2.countP
         (fun e => decide (e = Event.destroyCall)) = 1 ∧
       (executeCodeSequential cfg code tcs env).2.getLast? = some Event.destroyCall) ∧
    (∀ (cfg : LanguageConfig) (code : String) (tcs : List TestCase) (env : List Resp),
       (executeCodeStreaming cfg code tcs env).2.countP
         (fun e => decide (e = Event.destroyCall)) = 1 ∧
       (executeCodeStreaming cfg code tcs env).2.getLast? = some Event.destroyCall) := by
  constructor
  · intro cfg code tcs env
    have h := noDestroy_execBody cfg code tcs env
    constructor
    · show ((execBody cfg code tcs env).2.2 ++ [Event.destroyCall]).countP
        (fun e => decide (e = Event.destroyCall)) = 1
      rw [List.countP_append, countP_destroy_of_noDestroy h]
      rfl
    · show ((execBody cfg code tcs env).2.2 ++ [Event.destroyCall]).getLast? =
        some Event.destroyCall
      rw [getLast?_append_ne _ _ (by simp)]
      rfl
  · intro cfg code tcs env
    have h : NoDestroy (catchE (streamBody cfg code tcs env)
        (fun _ env1 => doSend "error" env1)).2.2 := by
      apply noDestroy_catchE _ _ (noDestroy_streamBody cfg code tcs env)
      intro m env1
      exact noDestroy_doSend _ _
    constructor
    · show ((catchE (streamBody cfg code tcs env)
          (fun _ env1 => doSend "error" env1)).2.2 ++ [Event.destroyCall]).countP
        (fun e => decide (e = Event.destroyCall)) = 1
      rw [List.countP_append, countP_destroy_of_noDestroy h]
      rfl
    · show ((catchE (streamBody cfg code tcs env)
          (fun _ env1 => doSend "error" env1)).2.2 ++ [Event.destroyCall]).getLast? =
        some Event.destroyCall
      rw [getLast?_append_ne _ _ (by simp)]
      rfl

/-- C2: when the compile step of a compiled-language session exits
non-zero, the session produces exactly one outcome per requested test
case, every outcome carries the same compiler diagnostic (the compile
step's stderr, or the fallback text when empty), and the whole recorded
trace is warm-up, one source write, the compile command and the teardown:
no per-test process is ever executed. -/
theorem compile_failure_short_circuit (cfg : LanguageConfig) (code : String)
    (tcs : List TestCase) (cc : String) (r0 r1 cr : ExecResult) (rest : List Resp)
    (hC : cfg.isCompiled = true) (hcc : cfg.compileCommand = some cc)
    (hne : cr.exitCode ≠ 0) :
    executeCodeSequential cfg code tcs
        (Resp.ok r0 :: Resp.ok r1 :: Resp.ok cr :: rest) =
      ((List.range tcs.length).map
         (compileFailResult (jsOrS cr.stderr "Compilation failed") cr.exitCode),
       [Event.execCmd warmupCmd,
        Event.fileWrite (fileNameFor cfg) (codeForCompilation cfg code),
        Event.execCmd cc,
        Event.destroyCall]) ∧
    (executeCodeSequential cfg code tcs
        (Resp.ok r0 :: Resp.ok r1 :: Resp.ok cr :: rest)).1.length = tcs.length ∧
    (∀ o ∈ (executeCodeSequential cfg code tcs
        (Resp.ok r0 :: Resp.ok r1 :: Resp.ok cr :: rest)).1,
       o.stderr = jsOrS cr.stderr "Compilation failed" ∧
       o.error = some "Compilation failed" ∧
       o.exitCode = cr.exitCode) := by
  have hmain : executeCodeSequential cfg code tcs
      (Resp.ok r0 :: Resp.ok r1 :: Resp.ok cr :: rest) =
      ((List.range tcs.length).map
         (compileFailResult (jsOrS cr.stderr "Compilation failed") cr.exitCode),
       [Event.execCmd warmupCmd,
        Event.fileWrite (fileNameFor cfg) (codeForCompilation cfg code),
        Event.execCmd cc,
        Event.destroyCall]) := by
    simp only [executeCodeSequential, execBody, andThenE, doExec, doWrite,
      List.tail_cons, hC, hcc, if_pos hne]
    simp
  refine ⟨hmain, ?_, ?_⟩
  · rw [hmain]
    simp
  · rw [hmain]
    intro o ho
    simp only [List.mem_map] at ho
    obtain ⟨k, _, rfl⟩ := ho
    exact ⟨rfl, rfl, rfl⟩

/-- Witness for `compile_failure_short_circuit`: a two-test-case cpp
session whose compile exits 1 with diagnostic "boom". -/
theorem compile_failure_short_circuit_witness :
    executeCodeSequential seqCppConfig "bad code"
        [⟨"1", 1000, 65536⟩, ⟨"2", 2000, 65536⟩]
        [Resp.ok ⟨"", "", 0⟩, Resp.ok ⟨"", "", 0⟩, Resp.ok ⟨"", "boom", 1⟩] =
      ((List.range 2).map (compileFailResult (jsOrS "boom" "Compilation failed") 1),
       [Event.execCmd warmupCmd,
        Event.fileWrite (fileNameFor seqCppConfig) (codeForCompilation seqCppConfig "bad code"),
        Event.execCmd "g++ -std=c++17 -O2 -o /app/executable /app/code.cpp",
        Event.destroyCall]) :=
  (compile_failure_short_circuit seqCppConfig "bad code"
    [⟨"1", 1000, 65536⟩, ⟨"2", 2000, 65536⟩]
    "g++ -std=c++17 -O2 -o /app/executable /app/code.cpp"
    ⟨"", "", 0⟩ ⟨"", "", 0⟩ ⟨"", "boom", 1⟩ []
    rfl rfl (by decide)).1

theorem runTestCase_index (cfg : LanguageConfig) (code : String) (i : Nat)
    (tc : TestCase) (env : List Resp) :
    (runTestCase cfg code i tc env).1.testCaseIndex = i := by
  unfold runTestCase
  rcases hr : runTestOps cfg code tc env with ⟨res, env1, ev1⟩
  cases res <;> rfl

theorem runTests_length (cfg : LanguageConfig) (code : String) :
    ∀ (tcs : List TestCase) (i : Nat) (env : List Resp),
      (runTests cfg code i tcs env).1.length = tcs.length
  | [], _, _ => rfl
  | tc :: rest, i, env => by
    show ((runTestCase cfg code i tc env).1 ::
        (runTests cfg code (i+1) rest (runTestCase cfg code i tc env).2.1).1).length =
      rest.length + 1
    simp [runTests_length cfg code rest (i+1) _]

theorem runTests_indices (cfg : LanguageConfig) (code : String) :
    ∀ (tcs : List TestCase) (i : Nat) (env : List Resp),
      (runTests cfg code i tcs env).1.map ExecutionResult.testCaseIndex =
        List.range' i tcs.length
  | [], _, _ => rfl
  | tc :: rest, i, env => by
    show ((runTestCase cfg code i tc env).1 ::
        (runTests cfg code (i+1) rest (runTestCase cfg code i tc env).2.1).1).map
        ExecutionResult.testCaseIndex = List.range' i (rest.length + 1)
    rw [List.map_cons, runTestCase_index, runTests_indices cfg code rest (i+1) _]
    rfl

/-- C8 counterexample: a supervisor infrastructure failure whose message
contains "timeout" — here "connection timeout" thrown by the sandbox call
— is recorded with timedOut = true, not false: the catch block computes
the flag from `message.includes("timeout")`. -/
theorem per_test_error_timeout_counterexample :
    (runTestCase seqCppConfig "" 0 ⟨"", 1000, 65536⟩
        [Resp.thrown "connection timeout"]).1 =
      seqCatchResult 0 "connection timeout" ∧
    (seqCatchResult 0 "connection timeout").timedOut = true := by
  constructor
  · decide
  · decide

/-- C8 (amended): a per-test throw at index i is recorded at index i with
the failure message as stderr and as the error field, exit code 1,
memoryExceeded = false, and timedOut equal to whether the message contains
the substring "timeout" (not unconditionally false); the loop still
records exactly one outcome per requested index, in submission order —
only compile failure short-circuits the batch. -/
theorem per_test_error_recorded_and_continues (cfg : LanguageConfig) (code : String) :
    (∀ (i : Nat) (tc : TestCase) (m : String) (env2 : List Resp),
       (runTestCase cfg code i tc (Resp.thrown m :: env2)).1 = seqCatchResult i m) ∧
    (∀ (i : Nat) (m : String),
       seqCatchResult i m =
         { testCaseIndex := i
           stdout := ""
           stderr := m
           exitCode := 1
           memoryKB := some 0
           timeMS := some 0
           timedOut := jsIncludes m "timeout"
           memoryExceeded := false
           error := some m }) ∧
    (∀ (tcs : List TestCase) (i : Nat) (env : List Resp),
       (runTests cfg code i tcs env).1.length = tcs.length) ∧
    (∀ (tcs : List TestCase) (i : Nat) (env : List Resp),
       (runTests cfg code i tcs env).1.map ExecutionResult.testCaseIndex =
         List.range' i tcs.length) := by
  refine ⟨?_, fun i m => rfl, runTests_length cfg code, runTests_indices cfg code⟩
  intro i tc m env2
  cases hc : cfg.isCompiled <;>
    simp [runTestCase, runTestOps, andThenE, doWrite, doExec, hc]

/-- C4: evaluating the code at the failing input.  A SandboxRuntime
session over the cpp configuration that runs two test cases through
`run()` executes the fixed compile command twice — once per test case —
because `compileIfNeeded` stores the `compiled` flag but never consults
it.  (The sequential batch executor does compile once per session; see
`compile_failure_short_circuit`'s trace for the compile-failure path.) -/
theorem sr_compile_reinvoked_per_run :
    ((srSession srCppConfig "int main()\x7b\x7d" false
        [⟨"", 1000, 65536⟩, ⟨"", 1000, 65536⟩]
        (List.replicate 10 (Resp.ok ⟨"", "", 0⟩))).2.2.countP
      (fun e => decide (e = Event.execCmd srCppConfig.compileCommand))) = 2 ∧
    (2 : Nat) ≠ 1 := by
  constructor
  · decide
  · decide

/-- C1: for every supervised run, the reported limit-breach flags are
determined by the monitor's exit code through the variant's fixed mapping:
the sequential batch executor sets `timedOut` iff the exit code is 124 and
`memoryExceeded` iff it is 137, while the `SandboxRuntime` and streaming
variants use 143 and 134 respectively. -/
theorem exit_code_flag_mapping :
    (∀ (i : Nat) (r : ExecResult),
       ((mkSeqTestResult i r).timedOut = true ↔ r.exitCode = 124) ∧
       ((mkSeqTestResult i r).memoryExceeded = true ↔ r.exitCode = 137)) ∧
    (∀ r : ExecResult,
       ((srExecuteTimedResult r).timedOut = true ↔ r.exitCode = 143) ∧
       ((srExecuteTimedResult r).memoryExceeded = true ↔ r.exitCode = 134)) ∧
    (∀ (i : Nat) (r : ExecResult),
       ((mkStreamTestResult i r).timedOut = true ↔ r.exitCode = 143) ∧
       ((mkStreamTestResult i r).memoryExceeded = true ↔ r.exitCode = 134)) := by
  refine ⟨fun i r => ⟨?_, ?_⟩, fun r => ⟨?_, ?_⟩, fun i r => ⟨?_, ?_⟩⟩ <;>
    simp [mkSeqTestResult, srExecuteTimedResult, mkStreamTestResult]

end Ukoly

